import Mathlib

/-
Verification of the noise-preconditioning wrappers and training/sampling
drivers of the CTM repository (cm/networks.py, cm_train.py, image_sample.py).

The tensor arithmetic of the preconditioners is elementwise, so a tensor is
embedded as a single real number and the backbone network as an opaque
function on reals.  Exact real arithmetic replaces float arithmetic
throughout, as the claims request.
-/

namespace CTM

/-! ## VPPrecond (networks.py lines 824-853) -/

/-- VPPrecond.sigma_inv: ((beta_min ** 2 + 2 * beta_d * (1 + sigma ** 2).log()).sqrt() - beta_min) / beta_d. -/
noncomputable def VPPrecond.sigma_inv (beta_d beta_min sigma : ℝ) : ℝ :=
  (Real.sqrt (beta_min ^ 2 + 2 * beta_d * Real.log (1 + sigma ^ 2)) - beta_min) / beta_d

/-- VPPrecond.forward: c_skip = 1, c_out = -sigma, c_in = 1 / (sigma ** 2 + 1).sqrt(),
c_noise = (M - 1) * sigma_inv(sigma); D_x = c_skip * x + c_out * F(c_in * x, c_noise).
The backbone model is the opaque `F`. -/
noncomputable def VPPrecond.forward (M : ℕ) (beta_d beta_min : ℝ)
    (F : ℝ → ℝ → ℝ) (x sigma : ℝ) : ℝ :=
  let c_skip : ℝ := 1
  let c_out : ℝ := -sigma
  let c_in : ℝ := 1 / Real.sqrt (sigma ^ 2 + 1)
  let c_noise : ℝ := ((M : ℝ) - 1) * VPPrecond.sigma_inv beta_d beta_min sigma
  c_skip * x + c_out * F (c_in * x) c_noise

/-! ## VEPrecond (networks.py lines 905-926) -/

/-- VEPrecond.forward: c_skip = 1, c_out = sigma, c_in = 1, c_noise = (0.5 * sigma).log();
D_x = c_skip * x + c_out * F(c_in * x, c_noise). -/
noncomputable def VEPrecond.forward (F : ℝ → ℝ → ℝ) (x sigma : ℝ) : ℝ :=
  let c_skip : ℝ := 1
  let c_out : ℝ := sigma
  let c_in : ℝ := 1
  let c_noise : ℝ := Real.log (0.5 * sigma)
  c_skip * x + c_out * F (c_in * x) c_noise

/-! ## EDMPrecond (networks.py lines 1067-1087) -/

/-- EDMPrecond.forward: c_skip = sigma_data ** 2 / (sigma ** 2 + sigma_data ** 2),
c_out = sigma * sigma_data / (sigma ** 2 + sigma_data ** 2).sqrt(),
c_in = 1 / (sigma_data ** 2 + sigma ** 2).sqrt(), c_noise = sigma.log() / 4;
D_x = c_skip * x + c_out * F(c_in * x, c_noise). -/
noncomputable def EDMPrecond.forward (sigma_data : ℝ) (F : ℝ → ℝ → ℝ) (x sigma : ℝ) : ℝ :=
  let c_skip : ℝ := sigma_data ^ 2 / (sigma ^ 2 + sigma_data ^ 2)
  let c_out : ℝ := sigma * sigma_data / Real.sqrt (sigma ^ 2 + sigma_data ^ 2)
  let c_in : ℝ := 1 / Real.sqrt (sigma_data ^ 2 + sigma ^ 2)
  let c_noise : ℝ := Real.log sigma / 4
  c_skip * x + c_out * F (c_in * x) c_noise

/-- Transcription of claim C1's formula in the spec's own words: D_x = c_skip * x +
c_out * F((c_in * x), c_noise) with c_skip = sigma_data^2 / (sigma^2 + sigma_data^2),
c_out = sigma * sigma_data / sqrt(sigma^2 + sigma_data^2), c_in = 1 / sqrt(sigma_data^2 + sigma^2),
c_noise = ln(sigma) / 4. -/
noncomputable def EDMPrecondSpec.D_x (sigma_data : ℝ) (F : ℝ → ℝ → ℝ) (x sigma : ℝ) : ℝ :=
  sigma_data ^ 2 / (sigma ^ 2 + sigma_data ^ 2) * x +
    sigma * sigma_data / Real.sqrt (sigma ^ 2 + sigma_data ^ 2) *
      F (1 / Real.sqrt (sigma_data ^ 2 + sigma ^ 2) * x) (Real.log sigma / 4)

/-- Transcription of claim C3's formula for VP:
x - sigma * F(x / sqrt(sigma^2 + 1), (M - 1) * sigma_inv(sigma)). -/
noncomputable def VPPrecondSpec.D_x (M : ℕ) (beta_d beta_min : ℝ)
    (F : ℝ → ℝ → ℝ) (x sigma : ℝ) : ℝ :=
  x - sigma * F (x / Real.sqrt (sigma ^ 2 + 1))
    (((M : ℝ) - 1) * VPPrecond.sigma_inv beta_d beta_min sigma)

/-- Transcription of claim C3's formula for VE: x + sigma * F(x, ln(sigma / 2)),
the input passed unscaled. -/
noncomputable def VEPrecondSpec.D_x (F : ℝ → ℝ → ℝ) (x sigma : ℝ) : ℝ :=
  x + sigma * F x (Real.log (sigma / 2))

end CTM

namespace CTM

/-! ## EDMPrecond_CTM (networks.py lines 1118-1262) -/

/-- EDMPrecond_CTM.unrescaling_t: torch.exp(rescaled_t / 250.) - 1e-44. -/
noncomputable def EDMPrecond_CTM.unrescaling_t (rescaled_t : ℝ) : ℝ :=
  Real.exp (rescaled_t / 250) - 1e-44

/-- EDMPrecond_CTM.get_c_in for the default inner_parametrization 'edm':
1 / (sigma ** 2 + sigma_data ** 2) ** 0.5, with ** 0.5 as the real power. -/
noncomputable def EDMPrecond_CTM.get_c_in (sigma_data sigma : ℝ) : ℝ :=
  1 / (sigma ^ 2 + sigma_data ^ 2) ^ (0.5 : ℝ)

/-- EDMPrecond_CTM.forward (networks.py lines 1209-1259), unconditional case
(label_dim = 0, so class_labels = None).  The backbone call of line 1253 passes
x = rescaled_x (cast to dtype only), noise_labels = t.flatten(),
noise_labels_s = None if s == None else s.flatten(), and x_T; the backbone is
the opaque `F`.  The first statement of the teacher branch (line 1226) raises
NotImplementedError, embedded as `Except.error`; the statements after the raise
in that branch are unreachable.  `teacher` is the `self.teacher` flag set by the
constructor. -/
noncomputable def EDMPrecond_CTM.forward (teacher : Bool)
    (F : ℝ → ℝ → Option ℝ → Option ℝ → ℝ)
    (rescaled_x rescaled_t : ℝ) (s : Option ℝ) (x_T : Option ℝ) :
    Except String ℝ :=
  if teacher then
    Except.error "NotImplementedError"
  else
    let t := EDMPrecond_CTM.unrescaling_t rescaled_t
    let t := Real.log (t + 1e-44) / 4
    let s := s.map (fun v => Real.log (EDMPrecond_CTM.unrescaling_t v + 1e-44) / 4)
    Except.ok (F rescaled_x t s x_T)

/-- Transcription of claim C2's description of the non-teacher forward: the tensor
passed to the backbone is scaled by the input coefficient get_c_in, and the backbone
output is combined with the input through the class's noise-dependent skip/output
coefficients (networks.py lines 1232-1233: c_skip = sigma_data ** 2 / (sigma ** 2 +
sigma_data ** 2), c_out = sigma * sigma_data / (sigma ** 2 + sigma_data ** 2).sqrt()),
with sigma = unrescaling_t(rescaled_t) and the backbone noise label as in the code. -/
noncomputable def EDMPrecond_CTM.forwardClaim (sigma_data : ℝ)
    (F : ℝ → ℝ → Option ℝ → Option ℝ → ℝ)
    (rescaled_x rescaled_t : ℝ) (s : Option ℝ) (x_T : Option ℝ) : ℝ :=
  let sigma := EDMPrecond_CTM.unrescaling_t rescaled_t
  let t := Real.log (sigma + 1e-44) / 4
  let s := s.map (fun v => Real.log (EDMPrecond_CTM.unrescaling_t v + 1e-44) / 4)
  let c_skip := sigma_data ^ 2 / (sigma ^ 2 + sigma_data ^ 2)
  let c_out := sigma * sigma_data / Real.sqrt (sigma ^ 2 + sigma_data ^ 2)
  let c_in := EDMPrecond_CTM.get_c_in sigma_data sigma
  c_skip * rescaled_x + c_out * F (c_in * rescaled_x) t s x_T

/-! ## iDDPMPrecond (networks.py lines 955-1016) -/

/-- iDDPMPrecond.alpha_bar: (0.5 * np.pi * j / M / (C_2 + 1)).sin() ** 2. -/
noncomputable def iDDPMPrecond.alpha_bar (C_2 : ℝ) (M : ℕ) (j : ℕ) : ℝ :=
  Real.sin (0.5 * Real.pi * j / M / (C_2 + 1)) ^ 2

/-- The backward fill of the noise-level table u in iDDPMPrecond.__init__, indexed by
the number k of backward steps taken from u[M] = 0: uAux k is the value stored in
u[M - k].  The loop body for j = M - k is
u[j - 1] = ((u[j] ** 2 + 1) / (alpha_bar(j - 1) / alpha_bar(j)).clip(min=C_1) - 1).sqrt(),
with clip(min=C_1) embedded as max with C_1. -/
noncomputable def iDDPMPrecond.uAux (C_1 C_2 : ℝ) (M : ℕ) : ℕ → ℝ
  | 0 => 0
  | k + 1 =>
    Real.sqrt ((iDDPMPrecond.uAux C_1 C_2 M k ^ 2 + 1) /
      max (iDDPMPrecond.alpha_bar C_2 M (M - (k + 1)) / iDDPMPrecond.alpha_bar C_2 M (M - k))
        C_1 - 1)

/-- The noise-level table u of iDDPMPrecond.__init__, as a function of the index j
(0 <= j <= M): u[M] = 0 and the loop for j = M, ..., 1 sets u[j-1] from u[j]. -/
noncomputable def iDDPMPrecond.u (C_1 C_2 : ℝ) (M : ℕ) (j : ℕ) : ℝ :=
  iDDPMPrecond.uAux C_1 C_2 M (M - j)

end CTM

namespace CTM

/-! ## cm_train.py: teacher/student and EMA weight relationships

A module's parameter list is embedded as a list of named parameters; a tensor
parameter is a single real (the copy dst.data.copy_(src.data) is elementwise).
A dotted parameter name is embedded as its list of dot-separated components,
each a list of characters (splitting on '.' and joining with '.' are inverse
to each other because components never contain a dot). -/

structure NamedParam where
  name : List (List Char)
  val : ℝ
  requiresGrad : Bool

/-- The result of `''.join(name.split('_train'))` inside cm_train.main's filter_:
every (leftmost, non-overlapping) occurrence of the substring '_train' is removed. -/
def removeTrain : List Char → List Char
  | '_' :: 't' :: 'r' :: 'a' :: 'i' :: 'n' :: rest => removeTrain rest
  | c :: rest => c :: removeTrain rest
  | [] => []

/-- cm_train.main's filter_(dst_name): every component of the dotted name has its
'_train' occurrences removed; the components are then rejoined. -/
def cmTrain.filter_name (n : List (List Char)) : List (List Char) :=
  n.map removeTrain

/-- The membership test dst_name in ['.'.join(src_name.split('.')[1:]), src_name]
of cm_train.main (lines 131 and 137): the student name equals the teacher name
with its first dot-separated component dropped, or equals it exactly. -/
def cmTrain.nameMatch (dst src : List (List Char)) : Bool :=
  dst == src.drop 1 || dst == src

/-- The inner loop over teacher_model.named_parameters() in cm_train.main
(lines 130-139) for one student parameter dst: at the first teacher parameter
src whose name matches dst's name exactly or after dropping src's first
component, dst's value is overwritten with src's (and under linear_probing dst
additionally has requires_grad set to False) and the loop breaks; otherwise,
under linear_probing, if filter_(dst_name) matches that way, dst's value is
overwritten and the loop breaks; otherwise the next teacher parameter is tried. -/
def cmTrain.copyFromTeacher (linear_probing : Bool) (teachers : List NamedParam)
    (dst : NamedParam) : NamedParam :=
  match teachers with
  | [] => dst
  | src :: rest =>
    if cmTrain.nameMatch dst.name src.name then
      { dst with val := src.val,
                 requiresGrad := if linear_probing then false else dst.requiresGrad }
    else if linear_probing && cmTrain.nameMatch (cmTrain.filter_name dst.name) src.name then
      { dst with val := src.val }
    else cmTrain.copyFromTeacher linear_probing rest dst

/-- The outer loop over model.named_parameters() in cm_train.main (line 129):
every student parameter is processed by the inner loop. -/
def cmTrain.loadTeacherWeights (linear_probing : Bool)
    (students teachers : List NamedParam) : List NamedParam :=
  students.map (cmTrain.copyFromTeacher linear_probing teachers)

/-- teacher_model.requires_grad_(False) (cm_train.py line 140): every parameter of
the teacher model gets requires_grad = False. -/
def cmTrain.requiresGradFalse (ps : List NamedParam) : List NamedParam :=
  ps.map (fun p => { p with requiresGrad := false })

/-- The matching relation cm_train.main's double loop actually uses for copying:
exact or drop-first-component match, or - under linear_probing - the same after
removing every occurrence of '_train' from the student name's components. -/
def cmTrain.codeMatch (linear_probing : Bool) (dst src : List (List Char)) : Bool :=
  cmTrain.nameMatch dst src || (linear_probing && cmTrain.nameMatch (cmTrain.filter_name dst) src)

/-- Repeatedly strip a trailing '_train' from a reversed component ('niart_' is
'_train' reversed). -/
def stripRevTrain : List Char → List Char
  | 'n' :: 'i' :: 'a' :: 'r' :: 't' :: '_' :: rest => stripRevTrain rest
  | l => l

/-- Modelled from the claim's words for C6: removal of '_train' suffixes (not of
internal occurrences) from one component of the student name. -/
def removeTrainSuffix (c : List Char) : List Char :=
  (stripRevTrain c.reverse).reverse

/-- The matching relation in claim C6's words: exact or drop-first-component match,
or - under linear_probing - the same after removing '_train' suffixes from the
student name's components. -/
def cmTrain.specMatch (linear_probing : Bool) (dst src : List (List Char)) : Bool :=
  cmTrain.nameMatch dst src ||
    (linear_probing && cmTrain.nameMatch (dst.map removeTrainSuffix) src)

/-- The target-model (EMA) initialization loop of cm_train.main (lines 172-173):
for dst, src in zip(target_model.parameters(), model.parameters()):
dst.data.copy_(src.data).  Parameters paired by zip are overwritten with the
source value; parameters of the target beyond the zipped range keep their value. -/
def cmTrain.emaInit (target model : List ℝ) : List ℝ :=
  (target.zip model).map Prod.snd ++ target.drop model.length

end CTM

namespace CTM

/-! ## EDMPrecond_CTM.__init__ backbone configuration (networks.py lines 1155-1178)
and the SongUNet defaults it falls back to (networks.py lines 291-318). -/

structure SongUNetCfg where
  resample_filter : List ℤ
  channel_mult_noise : ℕ
  encoder_type : String
  embedding_type : String
deriving DecidableEq

/-- The defaults of SongUNet.__init__ for the four fields EDMPrecond_CTM.__init__
may override: resample_filter = [1,3,3,1], channel_mult_noise = 2,
encoder_type = 'residual', embedding_type = 'fourier'. -/
def SongUNet.defaultCfg : SongUNetCfg :=
  { resample_filter := [1, 3, 3, 1]
    channel_mult_noise := 2
    encoder_type := "residual"
    embedding_type := "fourier" }

/-- The backbone configuration selected by EDMPrecond_CTM.__init__ (non-teacher
branch): for arch in ['ddpmpp', 'ncsnpp'] the four fields are set explicitly and
passed to the backbone constructor; for any other arch they are not passed, so
the class named by model_type keeps its own defaults. -/
def EDMPrecond_CTM.backboneCfg (arch : String) (modelTypeDefaults : SongUNetCfg) :
    SongUNetCfg :=
  if arch = "ddpmpp" || arch = "ncsnpp" then
    { resample_filter := if arch = "ddpmpp" then [1, 1] else [1, 3, 3, 1]
      channel_mult_noise := if arch = "ddpmpp" then 1 else 2
      encoder_type := if arch = "ddpmpp" then "standard" else "residual"
      embedding_type := if arch = "ddpmpp" then "positional" else "fourier" }
  else modelTypeDefaults

end CTM

namespace CTM

/-! ## image_sample.py sampling loop (lines 128-229)

itr = 0; while itr * batch_size < eval_num_samples: (draw a batch of batch_size
samples); itr += 1.  The function below counts the iterations the loop still
performs when the counter currently reads itr; the whole loop performs
loopIters ... 0 iterations, each producing batch_size samples. -/

def imageSample.loopIters (batch_size eval_num_samples : ℕ) (hb : 0 < batch_size)
    (itr : ℕ) : ℕ :=
  if h : itr * batch_size < eval_num_samples then
    imageSample.loopIters batch_size eval_num_samples hb (itr + 1) + 1
  else 0
termination_by eval_num_samples - itr * batch_size
decreasing_by
  have hx : (itr + 1) * batch_size = itr * batch_size + batch_size := by ring
  omega

end CTM

namespace CTM

/-! ## Theorems -/

/-- Helper: the noise-label transformation log(unrescaling_t(r) + 1e-44) / 4 collapses
to r / 1000 over exact real arithmetic. -/
theorem noise_label_collapse (r : ℝ) :
    Real.log (EDMPrecond_CTM.unrescaling_t r + 1e-44) / 4 = r / 1000 := by
  unfold EDMPrecond_CTM.unrescaling_t
  rw [sub_add_cancel, Real.log_exp]
  ring

/-- C1: for every input x and noise level sigma > 0, EDMPrecond.forward returns
D_x = c_skip * x + c_out * F((c_in * x), c_noise) with the EDM coefficients
c_skip = sigma_data^2 / (sigma^2 + sigma_data^2),
c_out = sigma * sigma_data / sqrt(sigma^2 + sigma_data^2),
c_in = 1 / sqrt(sigma_data^2 + sigma^2), c_noise = ln(sigma) / 4. -/
theorem EDMPrecond.forward_eq_spec (sigma_data : ℝ) (F : ℝ → ℝ → ℝ) (x sigma : ℝ)
    (hsigma : 0 < sigma) :
    EDMPrecond.forward sigma_data F x sigma = EDMPrecondSpec.D_x sigma_data F x sigma := rfl

/-- Witness for C1 at sigma_data = 0.5, F = addition, x = 1, sigma = 1. -/
theorem EDMPrecond.forward_eq_spec_witness :
    EDMPrecond.forward 0.5 (fun a b => a + b) 1 1 =
      EDMPrecondSpec.D_x 0.5 (fun a b => a + b) 1 1 :=
  EDMPrecond.forward_eq_spec 0.5 (fun a b => a + b) 1 1 (by norm_num)

/-- C3: for every x and sigma > 0, VPPrecond.forward returns
x - sigma * F(x / sqrt(sigma^2 + 1), (M - 1) * sigma_inv(sigma)) and
VEPrecond.forward returns x + sigma * F(x, ln(sigma / 2)) with the input passed
unscaled: both parametrizations use c_skip = 1 and a sigma-scaled network term. -/
theorem VPVE.forward_matches_spec (M : ℕ) (beta_d beta_min : ℝ) (F G : ℝ → ℝ → ℝ)
    (x sigma : ℝ) (hsigma : 0 < sigma) :
    VPPrecond.forward M beta_d beta_min F x sigma =
        VPPrecondSpec.D_x M beta_d beta_min F x sigma ∧
      VEPrecond.forward G x sigma = VEPrecondSpec.D_x G x sigma := by
  constructor
  · simp only [VPPrecond.forward, VPPrecondSpec.D_x]
    rw [one_div_mul_eq_div]
    ring
  · simp only [VEPrecond.forward, VEPrecondSpec.D_x]
    rw [one_mul, show (0.5 : ℝ) * sigma = sigma / 2 by ring]

/-- Witness for C3 at M = 1000, beta_d = 19.9, beta_min = 0.1, F = G = addition,
x = 1, sigma = 1. -/
theorem VPVE.forward_matches_spec_witness :
    VPPrecond.forward 1000 19.9 0.1 (fun a b => a + b) 1 1 =
        VPPrecondSpec.D_x 1000 19.9 0.1 (fun a b => a + b) 1 1 ∧
      VEPrecond.forward (fun a b => a + b) 1 1 = VEPrecondSpec.D_x (fun a b => a + b) 1 1 :=
  VPVE.forward_matches_spec 1000 19.9 0.1 (fun a b => a + b) (fun a b => a + b) 1 1 (by norm_num)

/-- C4: in the non-teacher path of EDMPrecond_CTM.forward the noise label handed to
the backbone, log(unrescaling_t(rescaled_t) + 1e-44) / 4 with
unrescaling_t(rescaled_t) = exp(rescaled_t / 250) - 1e-44, equals rescaled_t / 1000
exactly over the reals - a finite value, so the not-infinite and not-NaN assertions
on t cannot fail - and the optional second time argument s is transformed by the
same identity. -/
theorem EDMPrecond_CTM.noise_label_eq (rescaled_t : ℝ) :
    Real.log (EDMPrecond_CTM.unrescaling_t rescaled_t + 1e-44) / 4 = rescaled_t / 1000 ∧
      ∀ s : Option ℝ,
        s.map (fun v => Real.log (EDMPrecond_CTM.unrescaling_t v + 1e-44) / 4) =
          s.map (fun v => v / 1000) := by
  refine ⟨noise_label_collapse rescaled_t, fun s => ?_⟩
  cases s with
  | none => rfl
  | some v => simp [noise_label_collapse v]

/-- C2 counterexample: with teacher = False, a constant-zero backbone, input 1 and
rescaled time 0, the forward pass returns the raw backbone output 0, not the
get_c_in / c_skip / c_out combination the claim describes (which is strictly
positive there, since c_skip > 0); the non-teacher path performs no input/output
rescaling at all. -/
theorem EDMPrecond_CTM.forward_not_rescaled :
    EDMPrecond_CTM.forward false (fun _ _ _ _ => (0 : ℝ)) 1 0 none none ≠
      Except.ok (EDMPrecond_CTM.forwardClaim 0.5 (fun _ _ _ _ => (0 : ℝ)) 1 0 none none) := by
  unfold EDMPrecond_CTM.forward EDMPrecond_CTM.forwardClaim
  simp only [Bool.false_eq_true, if_false, Option.map_none, mul_zero, add_zero, mul_one,
    ne_eq, Except.ok.injEq]
  intro hEq
  have hpos : (0 : ℝ) <
      (0.5 : ℝ) ^ 2 / (EDMPrecond_CTM.unrescaling_t 0 ^ 2 + (0.5 : ℝ) ^ 2) := by
    positivity
  rw [← hEq] at hpos
  exact lt_irrefl 0 hpos

/-- C2 amended: EDMPrecond_CTM.forward with teacher = False passes the input tensor
to the backbone unchanged and returns the backbone's output unchanged; no get_c_in
input scaling and no skip/output combination is applied (those appear only in the
unreachable teacher branch).  Only the time arguments are transformed, to
rescaled_t / 1000 and s / 1000. -/
theorem EDMPrecond_CTM.forward_raw (F : ℝ → ℝ → Option ℝ → Option ℝ → ℝ)
    (rescaled_x rescaled_t : ℝ) (s x_T : Option ℝ) :
    EDMPrecond_CTM.forward false F rescaled_x rescaled_t s x_T =
      Except.ok (F rescaled_x (rescaled_t / 1000) (s.map (fun v => v / 1000)) x_T) := by
  unfold EDMPrecond_CTM.forward
  simp only [Bool.false_eq_true, if_false, noise_label_collapse]

/-- C8: for every backbone and every input, EDMPrecond_CTM.forward with the
constructor flag teacher = True raises NotImplementedError as the first statement
of the teacher branch: the result is the error for every backbone F alike, so no
model invocation or state change can have happened and the code after the raise is
unreachable. -/
theorem EDMPrecond_CTM.forward_teacher_raises (F : ℝ → ℝ → Option ℝ → Option ℝ → ℝ)
    (rescaled_x rescaled_t : ℝ) (s x_T : Option ℝ) :
    EDMPrecond_CTM.forward true F rescaled_x rescaled_t s x_T =
      Except.error "NotImplementedError" := rfl

/-- C5: after the target-model (EMA) initialization loop of cm_train.main, every
parameter of target_model equals the corresponding parameter of the student model:
the two parameter sequences are zipped in order and each destination is overwritten
by a copy of the source, so when the sequences have equal length the resulting
target parameter list is the student parameter list. -/
theorem cmTrain.emaInit_copies (target model : List ℝ)
    (h : target.length = model.length) :
    cmTrain.emaInit target model = model := by
  induction target generalizing model with
  | nil =>
    cases model with
    | nil => rfl
    | cons b bs => simp at h
  | cons a as ih =>
    cases model with
    | nil => simp at h
    | cons b bs =>
      have hrec := ih bs (by simpa using h)
      simp only [cmTrain.emaInit] at hrec ⊢
      simp only [List.zip_cons_cons, List.map_cons, List.length_cons,
        List.drop_succ_cons, List.cons_append, hrec]

/-- Witness for C5 on two equal-length parameter lists. -/
theorem cmTrain.emaInit_copies_witness :
    cmTrain.emaInit [0, 0] [1, 2] = [1, 2] :=
  cmTrain.emaInit_copies [0, 0] [1, 2] rfl

/-- C7: constructing EDMPrecond_CTM with arch = 'ddpmpp' selects the DDPM++ backbone
configuration (resample_filter [1,1], channel_mult_noise 1, encoder_type 'standard',
embedding_type 'positional'); arch = 'ncsnpp' selects the NCSN++ configuration
(resample_filter [1,3,3,1], channel_mult_noise 2, encoder_type 'residual',
embedding_type 'fourier'); any other arch value leaves the backbone class named by
model_type with its own defaults (for the default model_type SongUNet these are the
NCSN++ values). -/
theorem EDMPrecond_CTM.backboneCfg_spec (d : SongUNetCfg) (arch : String)
    (h1 : arch ≠ "ddpmpp") (h2 : arch ≠ "ncsnpp") :
    EDMPrecond_CTM.backboneCfg "ddpmpp" d =
        { resample_filter := [1, 1], channel_mult_noise := 1,
          encoder_type := "standard", embedding_type := "positional" } ∧
      EDMPrecond_CTM.backboneCfg "ncsnpp" d =
        { resample_filter := [1, 3, 3, 1], channel_mult_noise := 2,
          encoder_type := "residual", embedding_type := "fourier" } ∧
      EDMPrecond_CTM.backboneCfg arch d = d ∧
      SongUNet.defaultCfg =
        { resample_filter := [1, 3, 3, 1], channel_mult_noise := 2,
          encoder_type := "residual", embedding_type := "fourier" } := by
  refine ⟨rfl, rfl, ?_, rfl⟩
  simp [EDMPrecond_CTM.backboneCfg, h1, h2]

/-- Witness for C7 with the SongUNet defaults and the arch value 'adm'. -/
theorem EDMPrecond_CTM.backboneCfg_spec_witness :
    EDMPrecond_CTM.backboneCfg "ddpmpp" SongUNet.defaultCfg =
        { resample_filter := [1, 1], channel_mult_noise := 1,
          encoder_type := "standard", embedding_type := "positional" } ∧
      EDMPrecond_CTM.backboneCfg "ncsnpp" SongUNet.defaultCfg =
        { resample_filter := [1, 3, 3, 1], channel_mult_noise := 2,
          encoder_type := "residual", embedding_type := "fourier" } ∧
      EDMPrecond_CTM.backboneCfg "adm" SongUNet.defaultCfg = SongUNet.defaultCfg ∧
      SongUNet.defaultCfg =
        { resample_filter := [1, 3, 3, 1], channel_mult_noise := 2,
          encoder_type := "residual", embedding_type := "fourier" } :=
  EDMPrecond_CTM.backboneCfg_spec SongUNet.defaultCfg "adm" (by decide) (by decide)

/-- Helper: the remaining iteration count of the image_sample.main while loop,
started at counter itr, is the ceiling of the remaining sample deficit divided by
the batch size. -/
theorem imageSample.loopIters_formula (b n : ℕ) (hb : 0 < b) :
    ∀ m itr, n - itr * b ≤ m →
      imageSample.loopIters b n hb itr = (n - itr * b + b - 1) / b := by
  intro m
  induction m with
  | zero =>
    intro itr h
    rw [imageSample.loopIters, dif_neg (by omega)]
    have h0 : n - itr * b = 0 := by omega
    rw [h0]
    exact (Nat.div_eq_of_lt (by omega)).symm
  | succ m ih =>
    intro itr h
    by_cases hg : itr * b < n
    · have hx : (itr + 1) * b = itr * b + b := by ring
      rw [imageSample.loopIters, dif_pos hg, ih (itr + 1) (by omega)]
      have h2 : n - (itr + 1) * b = n - itr * b - b := by omega
      have h3 : n - itr * b + b - 1 = (n - itr * b - 1) + b := by omega
      rw [h2, h3, Nat.add_div_right _ hb]
      by_cases hbm : b ≤ n - itr * b
      · have h4 : n - itr * b - b + b - 1 = n - itr * b - 1 := by omega
        rw [h4]
      · have h4 : n - itr * b - b = 0 := by omega
        have h5 : (0 + b - 1) / b = 0 := Nat.div_eq_of_lt (by omega)
        have h6 : (n - itr * b - 1) / b = 0 := Nat.div_eq_of_lt (by omega)
        rw [h4, h5, h6]
    · rw [imageSample.loopIters, dif_neg hg]
      have h0 : n - itr * b = 0 := by omega
      rw [h0]
      exact (Nat.div_eq_of_lt (by omega)).symm

/-- C10: for every batch_size >= 1 and finite eval_num_samples, the sampling loop of
image_sample.main executes exactly ceil(eval_num_samples / batch_size) iterations
(the well-founded recursion terminating is part of the definition), and since each
iteration produces batch_size samples, at least eval_num_samples samples are
produced in total. -/
theorem imageSample.loop_count (batch_size eval_num_samples : ℕ)
    (hb : 0 < batch_size) :
    imageSample.loopIters batch_size eval_num_samples hb 0 =
        (eval_num_samples + batch_size - 1) / batch_size ∧
      eval_num_samples ≤
        imageSample.loopIters batch_size eval_num_samples hb 0 * batch_size := by
  have h := imageSample.loopIters_formula batch_size eval_num_samples hb
    eval_num_samples 0 (by omega)
  simp only [Nat.zero_mul, Nat.sub_zero] at h
  refine ⟨h, ?_⟩
  rw [h, Nat.mul_comm]
  have hd := Nat.div_add_mod (eval_num_samples + batch_size - 1) batch_size
  have hm := Nat.mod_lt (eval_num_samples + batch_size - 1) hb
  omega

/-- Witness for C10 at batch_size = 3, eval_num_samples = 7: the loop runs
ceil(7 / 3) = 3 iterations and produces 9 >= 7 samples. -/
theorem imageSample.loop_count_witness :
    imageSample.loopIters 3 7 (by norm_num) 0 = 3 ∧
      7 ≤ imageSample.loopIters 3 7 (by norm_num) 0 * 3 := by
  have h := imageSample.loop_count 3 7 (by norm_num)
  norm_num at h
  exact h

/-- Helper: the inner teacher loop never changes the student parameter's name. -/
theorem cmTrain.copyFromTeacher_name (lp : Bool) (teachers : List NamedParam)
    (dst : NamedParam) :
    (cmTrain.copyFromTeacher lp teachers dst).name = dst.name := by
  induction teachers with
  | nil => rfl
  | cons src rest ih =>
    simp only [cmTrain.copyFromTeacher]
    by_cases h1 : cmTrain.nameMatch dst.name src.name
    · simp [h1]
    · by_cases h2 : lp && cmTrain.nameMatch (cmTrain.filter_name dst.name) src.name
      · simp [h1, h2]
      · simpa [h1, h2] using ih

/-- Helper: if some teacher parameter matches the student parameter under the
matching relation the code uses, the inner loop copies the value of a matching
teacher parameter (the first one, in teacher order) into the student parameter. -/
theorem cmTrain.copyFromTeacher_finds (lp : Bool) (teachers : List NamedParam)
    (dst : NamedParam)
    (hmatch : ∃ src ∈ teachers, cmTrain.codeMatch lp dst.name src.name = true) :
    ∃ src ∈ teachers, cmTrain.codeMatch lp dst.name src.name = true ∧
      (cmTrain.copyFromTeacher lp teachers dst).val = src.val := by
  induction teachers with
  | nil => simp at hmatch
  | cons src rest ih =>
    by_cases h1 : cmTrain.nameMatch dst.name src.name
    · refine ⟨src, List.mem_cons_self src rest, ?_, ?_⟩
      · simp [cmTrain.codeMatch, h1]
      · simp [cmTrain.copyFromTeacher, h1]
    · by_cases h2 : lp && cmTrain.nameMatch (cmTrain.filter_name dst.name) src.name
      · refine ⟨src, List.mem_cons_self src rest, ?_, ?_⟩
        · simp only [cmTrain.codeMatch, h2, Bool.or_true]
        · simp [cmTrain.copyFromTeacher, h1, h2]
      · have hm2 : ∃ s ∈ rest, cmTrain.codeMatch lp dst.name s.name = true := by
          obtain ⟨s, hs, hc⟩ := hmatch
          rcases List.mem_cons.mp hs with rfl | hs2
          · rw [Bool.not_eq_true] at h1 h2
            simp [cmTrain.codeMatch, h1, h2] at hc
          · exact ⟨s, hs2, hc⟩
        obtain ⟨s, hs, hc, hv⟩ := ih hm2
        refine ⟨s, List.mem_cons_of_mem _ hs, hc, ?_⟩
        simpa [cmTrain.copyFromTeacher, h1, h2] using hv

/-- C6 counterexample: under linear_probing, the student parameter named
'a_trainb_train' matches, in the claim's sense (after removing '_train' suffixes
from its components), the teacher parameter named 'm.a_trainb' - but the code's
filter_ removes every occurrence of '_train', yielding 'ab', so the loop copies
nothing: the student value stays 0 and is not set equal to the matching teacher
parameter's value 1. -/
theorem cmTrain.teacher_load_cex :
    cmTrain.specMatch true
        [['a', '_', 't', 'r', 'a', 'i', 'n', 'b', '_', 't', 'r', 'a', 'i', 'n']]
        [['m'], ['a', '_', 't', 'r', 'a', 'i', 'n', 'b']] = true ∧
      (cmTrain.copyFromTeacher true
          [⟨[['m'], ['a', '_', 't', 'r', 'a', 'i', 'n', 'b']], 1, true⟩]
          ⟨[['a', '_', 't', 'r', 'a', 'i', 'n', 'b', '_', 't', 'r', 'a', 'i', 'n']], 0, true⟩).val
        = 0 ∧
      (0 : ℝ) ≠ 1 := by
  refine ⟨by decide, ?_, by norm_num⟩
  rfl

/-- C6 amended: when a non-empty teacher_model_path is given and self_learn is false,
every student parameter whose name matches a teacher parameter's name (exactly,
after dropping the teacher name's first dot-separated component, or - under
linear_probing - after removing every occurrence of '_train' from the student
name's components) is set equal to a teacher parameter matching it (the first such,
in teacher order), while keeping its own name, and the result is the student
parameter list produced by the loading loop; afterwards every parameter of the
teacher model has requires_grad set to False. -/
theorem cmTrain.teacher_load_spec (linear_probing : Bool)
    (students teachers : List NamedParam) (dst : NamedParam)
    (hdst : dst ∈ students)
    (hmatch : ∃ src ∈ teachers,
      cmTrain.codeMatch linear_probing dst.name src.name = true) :
    (∃ src ∈ teachers,
        cmTrain.codeMatch linear_probing dst.name src.name = true ∧
          (cmTrain.copyFromTeacher linear_probing teachers dst).val = src.val ∧
          (cmTrain.copyFromTeacher linear_probing teachers dst).name = dst.name ∧
          cmTrain.copyFromTeacher linear_probing teachers dst ∈
            cmTrain.loadTeacherWeights linear_probing students teachers) ∧
      ∀ p ∈ cmTrain.requiresGradFalse teachers, p.requiresGrad = false := by
  constructor
  · obtain ⟨src, hsrc, hcm, hval⟩ :=
      cmTrain.copyFromTeacher_finds linear_probing teachers dst hmatch
    exact ⟨src, hsrc, hcm, hval, cmTrain.copyFromTeacher_name linear_probing teachers dst,
      List.mem_map_of_mem _ hdst⟩
  · intro p hp
    simp only [cmTrain.requiresGradFalse, List.mem_map] at hp
    obtain ⟨q, _, rfl⟩ := hp
    rfl

/-- Witness for C6 on a one-parameter student and a one-parameter teacher whose
name matches after dropping its first component. -/
theorem cmTrain.teacher_load_spec_witness :
    (∃ src ∈ [NamedParam.mk [['m'], ['w']] 5 true],
        cmTrain.codeMatch false [['w']] src.name = true ∧
          (cmTrain.copyFromTeacher false [NamedParam.mk [['m'], ['w']] 5 true]
            (NamedParam.mk [['w']] 0 true)).val = src.val ∧
          (cmTrain.copyFromTeacher false [NamedParam.mk [['m'], ['w']] 5 true]
            (NamedParam.mk [['w']] 0 true)).name = [['w']] ∧
          cmTrain.copyFromTeacher false [NamedParam.mk [['m'], ['w']] 5 true]
              (NamedParam.mk [['w']] 0 true) ∈
            cmTrain.loadTeacherWeights false [NamedParam.mk [['w']] 0 true]
              [NamedParam.mk [['m'], ['w']] 5 true]) ∧
      ∀ p ∈ cmTrain.requiresGradFalse [NamedParam.mk [['m'], ['w']] 5 true],
        p.requiresGrad = false :=
  cmTrain.teacher_load_spec false [NamedParam.mk [['w']] 0 true]
    [NamedParam.mk [['m'], ['w']] 5 true] (NamedParam.mk [['w']] 0 true)
    (List.mem_cons_self _ _)
    ⟨NamedParam.mk [['m'], ['w']] 5 true, List.mem_cons_self _ _, by decide⟩

/-- Helper: every entry of the iDDPM noise-level table is nonnegative (it is 0 or a
square root). -/
theorem iDDPMPrecond.uAux_nonneg (C_1 C_2 : ℝ) (M : ℕ) (k : ℕ) :
    0 ≤ iDDPMPrecond.uAux C_1 C_2 M k := by
  cases k with
  | zero => exact le_refl 0
  | succ k => exact Real.sqrt_nonneg _

/-- Helper: the sine argument of alpha_bar lies in [0, pi/2] for indices up to M. -/
theorem iDDPMPrecond.theta_mem (C_2 : ℝ) (hC2 : 0 ≤ C_2) (M : ℕ) (hM : 0 < M)
    {j : ℕ} (hjM : j ≤ M) :
    0 ≤ 0.5 * Real.pi * j / M / (C_2 + 1) ∧
      0.5 * Real.pi * j / M / (C_2 + 1) ≤ Real.pi / 2 := by
  have hM0 : (0 : ℝ) < M := by exact_mod_cast hM
  have hC : (0 : ℝ) < C_2 + 1 := by linarith
  have hj : (j : ℝ) ≤ M := by exact_mod_cast hjM
  constructor
  · apply div_nonneg (div_nonneg (by positivity) hM0.le) hC.le
  · calc 0.5 * Real.pi * j / M / (C_2 + 1)
        ≤ 0.5 * Real.pi * M / M / (C_2 + 1) := by gcongr
      _ = 0.5 * Real.pi / (C_2 + 1) := by
          rw [mul_div_assoc, div_self hM0.ne', mul_one]
      _ ≤ 0.5 * Real.pi / 1 := by
          gcongr
          linarith
      _ = Real.pi / 2 := by ring

/-- Helper: alpha_bar is strictly positive at indices 1 <= j <= M. -/
theorem iDDPMPrecond.alpha_bar_pos (C_1 C_2 : ℝ) (hC2 : 0 ≤ C_2) (M : ℕ) (hM : 0 < M)
    {j : ℕ} (hj1 : 1 ≤ j) (hjM : j ≤ M) :
    0 < iDDPMPrecond.alpha_bar C_2 M j := by
  obtain ⟨h0, h2⟩ := iDDPMPrecond.theta_mem C_2 hC2 M hM hjM
  have hM0 : (0 : ℝ) < M := by exact_mod_cast hM
  have hC : (0 : ℝ) < C_2 + 1 := by linarith
  have hj0 : (0 : ℝ) < j := by exact_mod_cast hj1
  have hpos : 0 < 0.5 * Real.pi * j / M / (C_2 + 1) := by
    apply div_pos (div_pos (by positivity) hM0) hC
  have hlt : 0.5 * Real.pi * j / M / (C_2 + 1) < Real.pi := by
    have := Real.pi_pos
    linarith
  unfold iDDPMPrecond.alpha_bar
  exact pow_pos (Real.sin_pos_of_pos_of_lt_pi hpos hlt) 2

/-- Helper: alpha_bar is non-decreasing on 0 <= j <= M, because its sine argument
increases within [0, pi/2] where sin is non-decreasing and nonnegative. -/
theorem iDDPMPrecond.alpha_bar_mono (C_2 : ℝ) (hC2 : 0 ≤ C_2) (M : ℕ) (hM : 0 < M)
    {i j : ℕ} (hij : i ≤ j) (hjM : j ≤ M) :
    iDDPMPrecond.alpha_bar C_2 M i ≤ iDDPMPrecond.alpha_bar C_2 M j := by
  obtain ⟨hi0, hi2⟩ := iDDPMPrecond.theta_mem C_2 hC2 M hM (le_trans hij hjM)
  obtain ⟨hj0, hj2⟩ := iDDPMPrecond.theta_mem C_2 hC2 M hM hjM
  have hpi := Real.pi_pos
  have hij' : 0.5 * Real.pi * i / M / (C_2 + 1) ≤ 0.5 * Real.pi * j / M / (C_2 + 1) := by
    have hM0 : (0 : ℝ) ≤ M := by positivity
    have hC : (0 : ℝ) ≤ C_2 + 1 := by linarith
    have hij : (i : ℝ) ≤ j := by exact_mod_cast hij
    gcongr
  have hs : Real.sin (0.5 * Real.pi * i / M / (C_2 + 1)) ≤
      Real.sin (0.5 * Real.pi * j / M / (C_2 + 1)) :=
    Real.sin_le_sin_of_le_of_le_pi_div_two (by linarith) hj2 hij'
  have hsn : 0 ≤ Real.sin (0.5 * Real.pi * i / M / (C_2 + 1)) :=
    Real.sin_nonneg_of_nonneg_of_le_pi hi0 (by linarith)
  unfold iDDPMPrecond.alpha_bar
  exact pow_le_pow_left hsn hs 2

/-- Helper: one backward step of the iDDPM table fill does not decrease the value:
the clipped ratio lies in (0, 1], so (u^2 + 1) / ratio - 1 >= u^2. -/
theorem iDDPMPrecond.uAux_step (C_1 C_2 : ℝ) (hC1 : 0 < C_1) (hC1' : C_1 ≤ 1)
    (hC2 : 0 ≤ C_2) (M : ℕ) (hM : 0 < M) {k : ℕ} (hk : k < M) :
    iDDPMPrecond.uAux C_1 C_2 M k ≤ iDDPMPrecond.uAux C_1 C_2 M (k + 1) := by
  have ha : 0 ≤ iDDPMPrecond.uAux C_1 C_2 M k := iDDPMPrecond.uAux_nonneg C_1 C_2 M k
  set a := iDDPMPrecond.uAux C_1 C_2 M k with haDef
  set r := max (iDDPMPrecond.alpha_bar C_2 M (M - (k + 1)) /
      iDDPMPrecond.alpha_bar C_2 M (M - k)) C_1 with hrDef
  have hrpos : 0 < r := lt_of_lt_of_le hC1 (le_max_right _ _)
  have hr1 : r ≤ 1 := by
    apply max_le _ hC1'
    rw [div_le_one (iDDPMPrecond.alpha_bar_pos C_1 C_2 hC2 M hM
      (by omega) (by omega))]
    exact iDDPMPrecond.alpha_bar_mono C_2 hC2 M hM (by omega) (by omega)
  have hdiv : a ^ 2 + 1 ≤ (a ^ 2 + 1) / r := by
    rw [le_div_iff hrpos]
    calc (a ^ 2 + 1) * r ≤ (a ^ 2 + 1) * 1 := by
          apply mul_le_mul_of_nonneg_left hr1 (by positivity)
      _ = a ^ 2 + 1 := mul_one _
  have hrad : 0 ≤ (a ^ 2 + 1) / r - 1 := by
    have := sq_nonneg a
    linarith
  show a ≤ iDDPMPrecond.uAux C_1 C_2 M (k + 1)
  rw [iDDPMPrecond.uAux]
  exact (Real.le_sqrt ha hrad).mpr (by linarith)

/-- Helper: the table fill is monotone in the number of backward steps, up to M. -/
theorem iDDPMPrecond.uAux_mono (C_1 C_2 : ℝ) (hC1 : 0 < C_1) (hC1' : C_1 ≤ 1)
    (hC2 : 0 ≤ C_2) (M : ℕ) (hM : 0 < M) :
    ∀ k₂, k₂ ≤ M → ∀ k₁, k₁ ≤ k₂ →
      iDDPMPrecond.uAux C_1 C_2 M k₁ ≤ iDDPMPrecond.uAux C_1 C_2 M k₂ := by
  intro k₂
  induction k₂ with
  | zero =>
    intro _ k₁ hk₁
    have : k₁ = 0 := Nat.le_zero.mp hk₁
    rw [this]
  | succ n ih =>
    intro hn k₁ hk₁
    rcases Nat.lt_or_ge k₁ (n + 1) with hlt | hge
    · exact le_trans (ih (by omega) k₁ (by omega))
        (iDDPMPrecond.uAux_step C_1 C_2 hC1 hC1' hC2 M hM (by omega))
    · have : k₁ = n + 1 := by omega
      rw [this]

/-- C9: under 0 < C_1 <= 1, 0 <= C_2 and M >= 1 (satisfied by the defaults
C_1 = 0.001, C_2 = 0.008, M = 1000), the noise-level table u of
iDDPMPrecond.__init__ is non-increasing over exact real arithmetic: u[M] = 0,
each backward step satisfies u[j-1] >= u[j] (the clipped ratio
alpha_bar(j-1)/alpha_bar(j) lies in (0, 1] because alpha_bar is non-decreasing on
0 <= j <= M and C_1 <= 1), and consequently sigma_max = u[0] >= sigma_min = u[M-1] >= 0. -/
theorem iDDPMPrecond.u_nonincreasing (C_1 C_2 : ℝ) (M : ℕ)
    (hC1 : 0 < C_1) (hC1' : C_1 ≤ 1) (hC2 : 0 ≤ C_2) (hM : 0 < M) :
    iDDPMPrecond.u C_1 C_2 M M = 0 ∧
      (∀ j, 1 ≤ j → j ≤ M →
        iDDPMPrecond.u C_1 C_2 M j ≤ iDDPMPrecond.u C_1 C_2 M (j - 1)) ∧
      iDDPMPrecond.u C_1 C_2 M (M - 1) ≤ iDDPMPrecond.u C_1 C_2 M 0 ∧
      0 ≤ iDDPMPrecond.u C_1 C_2 M (M - 1) := by
  refine ⟨?_, ?_, ?_, ?_⟩
  · unfold iDDPMPrecond.u
    rw [Nat.sub_self]
    rfl
  · intro j hj1 hjM
    unfold iDDPMPrecond.u
    have h1 : M - (j - 1) = (M - j) + 1 := by omega
    rw [h1]
    exact iDDPMPrecond.uAux_step C_1 C_2 hC1 hC1' hC2 M hM (by omega)
  · unfold iDDPMPrecond.u
    have h1 : M - (M - 1) = 1 := by omega
    rw [h1, Nat.sub_zero]
    exact iDDPMPrecond.uAux_mono C_1 C_2 hC1 hC1' hC2 M hM M (le_refl M) 1 (by omega)
  · exact iDDPMPrecond.uAux_nonneg C_1 C_2 M (M - (M - 1))

/-- Witness for C9 at the iDDPMPrecond defaults C_1 = 0.001, C_2 = 0.008, M = 1000. -/
theorem iDDPMPrecond.u_nonincreasing_witness :
    iDDPMPrecond.u 0.001 0.008 1000 1000 = 0 ∧
      (∀ j, 1 ≤ j → j ≤ 1000 →
        iDDPMPrecond.u 0.001 0.008 1000 j ≤ iDDPMPrecond.u 0.001 0.008 1000 (j - 1)) ∧
      iDDPMPrecond.u 0.001 0.008 1000 (1000 - 1) ≤ iDDPMPrecond.u 0.001 0.008 1000 0 ∧
      0 ≤ iDDPMPrecond.u 0.001 0.008 1000 (1000 - 1) :=
  iDDPMPrecond.u_nonincreasing 0.001 0.008 1000 (by norm_num) (by norm_num)
    (by norm_num) (by norm_num)

end CTM
